import Mathlib

/-!
Verification of the user-state container of a book-library application
(`src/lib/state/user-state.svelte.ts`).

The TypeScript class `UserState` holds a signed-in user's identity, a cached
list of `Book` records and a display name; it fetches those from a backend,
derives read-only views (highest-rated books, unread books, favorite genre)
and applies partial updates.  We embed the data model and each operation as
executable Lean functions and prove the specified properties about them.

Modelling conventions:
* `number | null` fields become `Option Int`; `string | null` becomes
  `Option String`.  JavaScript truthiness of such fields is modelled
  explicitly (`truthyNum`, `truthyStr`): `null`, `0` and `""` are falsy.
* `created_at` is stored in the class as an ISO timestamp string and is only
  ever consumed through `new Date(s).getTime()`; we model the field directly
  as that numeric time value (a `Nat`), abstracting the date parse.
* `Array.prototype.toSorted(cmp)` with a comparator `(a, z) => k z - k a` is
  a stable sort that places `a` before `z` exactly when `k z ≤ k a`; we model
  it with `List.mergeSort` (stable) and the boolean relation
  `fun a z => decide (k z ≤ k a)`.
* An operation of the class that can throw at runtime is embedded with an
  `Option` result, `none` standing for the thrown exception.
-/

/-- The `Book` record of the source (`export interface Book`).  Field names
follow the source; `created_at` is the parsed timestamp (see module note). -/
structure Book where
  author : Option String
  cover_image : Option String
  created_at : Nat
  description : Option String
  finished_reading_on : Option String
  genre : Option String
  id : Int
  rating : Option Int
  started_reading_on : Option String
  title : String
  user_id : String
deriving Repr, DecidableEq

/-- JavaScript truthiness of a nullable number: `null` and `0` are falsy. -/
def truthyNum : Option Int → Bool
  | none => false
  | some n => n != 0

/-- JavaScript truthiness of a nullable string: `null` and `""` are falsy. -/
def truthyStr : Option String → Bool
  | none => false
  | some s => s != ""

/-- The rating used by the sort comparators: `book.rating` with a missing
value read as `0` (`a.rating || 0`; on the highest-rated path the non-null
assertion `a.rating!` only ever sees non-null ratings, where the two agree). -/
def ratingVal (b : Book) : Int := b.rating.getD 0

/-- `getHighestRatedBooks`: filter the books with a truthy rating, sort by
rating descending (`(a, z) => z.rating! - a.rating!`), keep the first 9. -/
def getHighestRatedBooks (books : List Book) : List Book :=
  ((books.filter (fun b => truthyNum b.rating)).mergeSort
    (fun a z => decide (ratingVal z ≤ ratingVal a))).take 9

/-- `getUnreadBooks`: filter the books with a falsy `started_reading_on`,
sort by `created_at` time descending, keep the first 9. -/
def getUnreadBooks (books : List Book) : List Book :=
  ((books.filter (fun b => !truthyStr b.started_reading_on)).mergeSort
    (fun a z => decide (z.created_at ≤ a.created_at))).take 9

/-- A concrete book with every optional field absent, used to build test
inputs by record update. -/
def baseBook : Book :=
  { author := none
    cover_image := none
    created_at := 0
    description := none
    finished_reading_on := none
    genre := none
    id := 1
    rating := none
    started_reading_on := none
    title := "t"
    user_id := "alice" }

section ViewLemmas

/-- The descending-rating comparator is transitive. -/
theorem ratingLe_trans : ∀ a b c : Book,
    decide (ratingVal b ≤ ratingVal a) = true →
    decide (ratingVal c ≤ ratingVal b) = true →
    decide (ratingVal c ≤ ratingVal a) = true := by
  intro a b c hab hbc
  simp only [decide_eq_true_eq] at *
  exact le_trans hbc hab

/-- The descending-rating comparator is total. -/
theorem ratingLe_total : ∀ a b : Book,
    (decide (ratingVal b ≤ ratingVal a) || decide (ratingVal a ≤ ratingVal b)) = true := by
  intro a b
  simp only [Bool.or_eq_true, decide_eq_true_eq]
  exact le_total (ratingVal b) (ratingVal a)

/-- The descending-`created_at` comparator is transitive. -/
theorem createdLe_trans : ∀ a b c : Book,
    decide (b.created_at ≤ a.created_at) = true →
    decide (c.created_at ≤ b.created_at) = true →
    decide (c.created_at ≤ a.created_at) = true := by
  intro a b c hab hbc
  simp only [decide_eq_true_eq] at *
  exact le_trans hbc hab

/-- The descending-`created_at` comparator is total. -/
theorem createdLe_total : ∀ a b : Book,
    (decide (b.created_at ≤ a.created_at) || decide (a.created_at ≤ b.created_at)) = true := by
  intro a b
  simp only [Bool.or_eq_true, decide_eq_true_eq]
  exact le_total b.created_at a.created_at

/-- Membership in `getHighestRatedBooks` implies membership in the filtered
list, hence a truthy rating. -/
theorem mem_getHighestRatedBooks {books : List Book} {b : Book}
    (h : b ∈ getHighestRatedBooks books) : b ∈ books ∧ truthyNum b.rating = true := by
  unfold getHighestRatedBooks at h
  have h1 : b ∈ (books.filter (fun b => truthyNum b.rating)).mergeSort
      (fun a z => decide (ratingVal z ≤ ratingVal a)) := List.mem_of_mem_take h
  have h2 : b ∈ books.filter (fun b => truthyNum b.rating) :=
    (List.mergeSort_perm _ _).mem_iff.mp h1
  have h3 := List.of_mem_filter h2
  exact ⟨List.mem_of_mem_filter h2, h3⟩

/-- Membership in `getUnreadBooks` implies membership in the filtered list,
hence a falsy `started_reading_on`. -/
theorem mem_getUnreadBooks {books : List Book} {b : Book}
    (h : b ∈ getUnreadBooks books) :
    b ∈ books ∧ truthyStr b.started_reading_on = false := by
  unfold getUnreadBooks at h
  have h1 : b ∈ (books.filter (fun b => !truthyStr b.started_reading_on)).mergeSort
      (fun a z => decide (z.created_at ≤ a.created_at)) := List.mem_of_mem_take h
  have h2 : b ∈ books.filter (fun b => !truthyStr b.started_reading_on) :=
    (List.mergeSort_perm _ _).mem_iff.mp h1
  have h3 := List.of_mem_filter h2
  simp only [Bool.not_eq_true'] at h3
  exact ⟨List.mem_of_mem_filter h2, h3⟩

end ViewLemmas

/-- The sorted prefix kept by `getHighestRatedBooks` is pairwise descending
in `ratingVal`. -/
theorem getHighestRatedBooks_pairwise (books : List Book) :
    (getHighestRatedBooks books).Pairwise (fun a z => ratingVal z ≤ ratingVal a) := by
  unfold getHighestRatedBooks
  have hs := List.sorted_mergeSort ratingLe_trans ratingLe_total
    (books.filter (fun b => truthyNum b.rating))
  have ht := List.Pairwise.sublist (List.take_sublist 9 _) hs
  exact ht.imp (fun h => of_decide_eq_true h)

/-- The sorted prefix kept by `getUnreadBooks` is pairwise descending in
`created_at`. -/
theorem getUnreadBooks_pairwise (books : List Book) :
    (getUnreadBooks books).Pairwise (fun a z => z.created_at ≤ a.created_at) := by
  unfold getUnreadBooks
  have hs := List.sorted_mergeSort createdLe_trans createdLe_total
    (books.filter (fun b => !truthyStr b.started_reading_on))
  have ht := List.Pairwise.sublist (List.take_sublist 9 _) hs
  exact ht.imp (fun h => of_decide_eq_true h)

/-- `mergeSort` of a one-element list is that list (via the permutation
property; `mergeSort` itself is defined by well-founded recursion and does
not reduce definitionally). -/
theorem mergeSort_single (le : Book → Book → Bool) (x : Book) :
    [x].mergeSort le = [x] :=
  List.perm_singleton.mp (List.mergeSort_perm [x] le)

/-- `getHighestRatedBooks` on a single book with truthy rating returns it. -/
theorem getHighestRatedBooks_single (b : Book) (h : truthyNum b.rating = true) :
    getHighestRatedBooks [b] = [b] := by
  unfold getHighestRatedBooks
  have hf : List.filter (fun x => truthyNum x.rating) [b] = [b] := by
    simp [List.filter_cons, h]
  rw [hf, mergeSort_single]
  rfl

/-- `getUnreadBooks` on a single book with falsy `started_reading_on`
returns it. -/
theorem getUnreadBooks_single (b : Book) (h : truthyStr b.started_reading_on = false) :
    getUnreadBooks [b] = [b] := by
  unfold getUnreadBooks
  have hf : List.filter (fun x => !truthyStr x.started_reading_on) [b] = [b] := by
    simp [List.filter_cons, h]
  rw [hf, mergeSort_single]
  rfl

/-- C4: for every books list, `getHighestRatedBooks` returns at most 9 books,
every returned book has a non-null rating, and the result is sorted in
descending order of rating. -/
theorem getHighestRatedBooks_spec (books : List Book) :
    (getHighestRatedBooks books).length ≤ 9 ∧
    (∀ b ∈ getHighestRatedBooks books, b.rating ≠ none) ∧
    (getHighestRatedBooks books).Pairwise (fun a z => ratingVal z ≤ ratingVal a) := by
  refine ⟨?_, ?_, getHighestRatedBooks_pairwise books⟩
  · unfold getHighestRatedBooks
    rw [List.length_take]
    exact min_le_left _ _
  · intro b hb
    have := (mem_getHighestRatedBooks hb).2
    cases hr : b.rating with
    | none => rw [hr] at this; simp [truthyNum] at this
    | some r => simp [hr]

/-- Witness for C4 on a concrete one-book list. -/
theorem getHighestRatedBooks_spec_witness :
    (getHighestRatedBooks [{ baseBook with rating := some 4 }]).length ≤ 9 ∧
    ({ baseBook with rating := some 4 } : Book).rating ≠ none :=
  ⟨(getHighestRatedBooks_spec _).1,
   (getHighestRatedBooks_spec [{ baseBook with rating := some 4 }]).2.1 _
     (by rw [getHighestRatedBooks_single { baseBook with rating := some 4 } (by decide)]
         exact List.mem_singleton.mpr rfl)⟩

/-- C10: a book whose rating is exactly 0 is never returned by
`getHighestRatedBooks`: the filter `book => book.rating` keeps only truthy
ratings and `0` is falsy in JavaScript. -/
theorem rating_zero_not_in_getHighestRatedBooks (books : List Book) (b : Book)
    (h : b.rating = some 0) : b ∉ getHighestRatedBooks books := by
  intro hmem
  have := (mem_getHighestRatedBooks hmem).2
  rw [h] at this
  simp [truthyNum] at this

/-- Witness for C10: a concrete zero-rated book is excluded even though it is
in the input list. -/
theorem rating_zero_not_in_getHighestRatedBooks_witness :
    ({ baseBook with rating := some 0 } : Book).rating = some 0 ∧
    { baseBook with rating := some 0 } ∉
      getHighestRatedBooks [{ baseBook with rating := some 0 }] :=
  ⟨rfl, rating_zero_not_in_getHighestRatedBooks _ _ rfl⟩

/-- C5 counterexample: a book whose `started_reading_on` is the empty string
(a value, but a JavaScript-falsy one) is returned by `getUnreadBooks`, so not
every returned book "has no started_reading_on value". -/
theorem getUnreadBooks_empty_string_counterexample :
    { baseBook with started_reading_on := some "" } ∈
      getUnreadBooks [{ baseBook with started_reading_on := some "" }] ∧
    ({ baseBook with started_reading_on := some "" } : Book).started_reading_on ≠ none := by
  constructor
  · rw [getUnreadBooks_single { baseBook with started_reading_on := some "" } (by decide)]
    exact List.mem_singleton.mpr rfl
  · intro h
    simp at h

/-- C5 (amended): `getUnreadBooks` returns at most 9 books, every returned
book has a null or empty-string `started_reading_on` (the code filters on
JavaScript falsiness, which admits `""`), and the result is sorted in
descending order of `created_at`. -/
theorem getUnreadBooks_spec (books : List Book) :
    (getUnreadBooks books).length ≤ 9 ∧
    (∀ b ∈ getUnreadBooks books,
      b.started_reading_on = none ∨ b.started_reading_on = some "") ∧
    (getUnreadBooks books).Pairwise (fun a z => z.created_at ≤ a.created_at) := by
  refine ⟨?_, ?_, getUnreadBooks_pairwise books⟩
  · unfold getUnreadBooks
    rw [List.length_take]
    exact min_le_left _ _
  · intro b hb
    have := (mem_getUnreadBooks hb).2
    cases hs : b.started_reading_on with
    | none => exact Or.inl rfl
    | some s =>
      rw [hs] at this
      simp [truthyStr] at this
      exact Or.inr (by rw [this])

/-- Witness for C5 (amended) on a concrete list. -/
theorem getUnreadBooks_spec_witness :
    (getUnreadBooks [baseBook]).length ≤ 9 ∧
    ((baseBook : Book).started_reading_on = none ∨
      (baseBook : Book).started_reading_on = some "") :=
  ⟨(getUnreadBooks_spec [baseBook]).1,
   (getUnreadBooks_spec [baseBook]).2.1 baseBook
     (by rw [getUnreadBooks_single baseBook (by decide)]
         exact List.mem_singleton.mpr rfl)⟩

/-- `Partial<UpdatableBookFields>`: every updatable field may be absent
(outer `none`) or present with a possibly-null value.  `UpdatableBookFields`
is `Omit<Book, "id" | "user_id" | "created_at">`, so those three fields can
never appear in an update object. -/
structure BookUpdate where
  author : Option (Option String) := none
  cover_image : Option (Option String) := none
  description : Option (Option String) := none
  finished_reading_on : Option (Option String) := none
  genre : Option (Option String) := none
  rating : Option (Option Int) := none
  started_reading_on : Option (Option String) := none
  title : Option String := none

/-- The object spread `{ ...book, ...updateObject }`: a field present in the
update object overrides the book's field, everything else is kept. -/
def applyUpdate (b : Book) (u : BookUpdate) : Book :=
  { b with
    author := u.author.getD b.author
    cover_image := u.cover_image.getD b.cover_image
    description := u.description.getD b.description
    finished_reading_on := u.finished_reading_on.getD b.finished_reading_on
    genre := u.genre.getD b.genre
    rating := u.rating.getD b.rating
    started_reading_on := u.started_reading_on.getD b.started_reading_on
    title := u.title.getD b.title }

/-- The `{ status, error }` part of the backend reply to a row update. -/
structure UpdateResponse where
  status : Nat
  error : Option String

/-- `getBookById`: `this.allBooks.find((book) => book.id === bookId)`. -/
def getBookById (books : List Book) (bookId : Int) : Option Book :=
  books.find? (fun book => book.id == bookId)

/-- `updateBook` (local effect): when the backend reply is status 204 with no
error, apply the partial update to every book with the given id; on any other
reply leave the list untouched.  The embedding is a total function returning
the new list: the source never throws on this path and surfaces no error. -/
def updateBook (books : List Book) (bookId : Int) (u : BookUpdate)
    (resp : UpdateResponse) : List Book :=
  if resp.status == 204 && resp.error.isNone then
    books.map (fun book => if book.id == bookId then applyUpdate book u else book)
  else books

/-- The update object `{ rating: 5 }`. -/
def rating5 : BookUpdate := { rating := some (some 5) }

/-- `applyUpdate` never changes a book's id. -/
theorem applyUpdate_id (b : Book) (u : BookUpdate) : (applyUpdate b u).id = b.id := rfl

/-- `applyUpdate` never changes a book's owner. -/
theorem applyUpdate_user_id (b : Book) (u : BookUpdate) :
    (applyUpdate b u).user_id = b.user_id := rfl

/-- `find?` by id commutes with the per-id update map. -/
theorem find?_map_update (books : List Book) (bookId : Int) (u : BookUpdate) :
    List.find? (fun book => book.id == bookId)
      (books.map (fun book => if book.id == bookId then applyUpdate book u else book)) =
    (List.find? (fun book => book.id == bookId) books).map (fun b => applyUpdate b u) := by
  induction books with
  | nil => rfl
  | cons x xs ih =>
    by_cases hx : (x.id == bookId) = true
    · have hpos2 : ((applyUpdate x u).id == bookId) = true := by
        rw [applyUpdate_id]; exact hx
      rw [List.map_cons, if_pos hx,
        @List.find?_cons_of_pos _ (fun book => book.id == bookId) (applyUpdate x u) _ hpos2,
        @List.find?_cons_of_pos _ (fun book => book.id == bookId) x _ hx, Option.map_some']
    · rw [List.map_cons, if_neg hx,
        @List.find?_cons_of_neg _ (fun book => book.id == bookId) x _ hx,
        @List.find?_cons_of_neg _ (fun book => book.id == bookId) x _ hx]
      exact ih

/-- C2: if the list holds a (unique-id) book `b` with `id = bookId` and the
backend reply to `updateBook bookId {rating: 5}` is status 204 with no error,
then afterwards the book found by `bookId` is `b` with rating 5 and every
other field unchanged, the list keeps its length, and every book at a
position whose id differs from `bookId` is exactly unchanged. -/
theorem updateBook_rating5_spec (books : List Book) (bookId : Int) (b : Book)
    (hnd : (books.map (fun x => x.id)).Nodup)
    (hfind : getBookById books bookId = some b) :
    getBookById (updateBook books bookId rating5 ⟨204, none⟩) bookId =
      some { b with rating := some 5 } ∧
    (updateBook books bookId rating5 ⟨204, none⟩).length = books.length ∧
    ∀ (i : Nat) (h1 : i < books.length)
      (h2 : i < (updateBook books bookId rating5 ⟨204, none⟩).length),
      books[i].id ≠ bookId → (updateBook books bookId rating5 ⟨204, none⟩)[i] = books[i] := by
  have hcond : ((204 : Nat) == 204 && (none : Option String).isNone) = true := rfl
  refine ⟨?_, ?_, ?_⟩
  · unfold updateBook getBookById
    rw [if_pos hcond, find?_map_update]
    unfold getBookById at hfind
    rw [hfind]
    rfl
  · unfold updateBook
    rw [if_pos hcond, List.length_map]
  · intro i h1 h2 hne
    unfold updateBook
    simp only [if_pos hcond, List.getElem_map]
    rw [if_neg]
    simp only [beq_iff_eq]
    exact hne

/-- Two concrete books with distinct ids for the update witnesses. -/
def demoBookOne : Book := { baseBook with id := 1, title := "one" }

/-- Second concrete book, id 2. -/
def demoBookTwo : Book := { baseBook with id := 2, title := "two", rating := some 3 }

/-- Witness for C2 on a concrete two-book list. -/
theorem updateBook_rating5_spec_witness :
    getBookById (updateBook [demoBookOne, demoBookTwo] 1 rating5 ⟨204, none⟩) 1 =
      some { demoBookOne with rating := some 5 } ∧
    (updateBook [demoBookOne, demoBookTwo] 1 rating5 ⟨204, none⟩).length = 2 ∧
    (updateBook [demoBookOne, demoBookTwo] 1 rating5 ⟨204, none⟩).get ⟨1, by decide⟩ =
      demoBookTwo :=
  ⟨(updateBook_rating5_spec [demoBookOne, demoBookTwo] 1 demoBookOne
      (by decide) (by decide)).1,
   (updateBook_rating5_spec [demoBookOne, demoBookTwo] 1 demoBookOne
      (by decide) (by decide)).2.1,
   (updateBook_rating5_spec [demoBookOne, demoBookTwo] 1 demoBookOne
      (by decide) (by decide)).2.2 1 (by decide) (by decide) (by decide)⟩

/-- C3: on any backend reply other than status 204 with no error, `updateBook`
leaves the books list exactly unchanged (and, the embedding being a total
function into the new list, surfaces no error to the caller). -/
theorem updateBook_failure_noop (books : List Book) (bookId : Int) (u : BookUpdate)
    (resp : UpdateResponse) (h : ¬(resp.status = 204 ∧ resp.error = none)) :
    updateBook books bookId u resp = books := by
  unfold updateBook
  rw [if_neg]
  intro hc
  rw [Bool.and_eq_true, beq_iff_eq, Option.isNone_iff_eq_none] at hc
  exact h hc

/-- Witness for C3: a 500-status reply and an error reply both leave a
concrete list unchanged. -/
theorem updateBook_failure_noop_witness :
    updateBook [demoBookOne, demoBookTwo] 1 rating5 ⟨500, none⟩ =
      [demoBookOne, demoBookTwo] ∧
    updateBook [demoBookOne, demoBookTwo] 1 rating5 ⟨204, some "boom"⟩ =
      [demoBookOne, demoBookTwo] :=
  ⟨updateBook_failure_noop _ _ _ _ (by decide),
   updateBook_failure_noop _ _ _ _ (by simp)⟩

/-- JavaScript `s.split(",")` on the character list of `s`: cut at every
comma; there is always at least one (possibly empty) piece. -/
def splitComma : List Char → List (List Char)
  | [] => [[]]
  | c :: cs =>
    let rest := splitComma cs
    if c = ',' then [] :: rest
    else (c :: rest.headD []) :: rest.tail

/-- JavaScript `s.trim()`: drop whitespace from both ends. -/
def trimChars (cs : List Char) : List Char :=
  ((cs.dropWhile Char.isWhitespace).reverse.dropWhile Char.isWhitespace).reverse

/-- The non-empty trimmed genre tokens a book contributes in
`getFavoriteGenre`: `book.genre ? book.genre.split(",") : []`, each token
trimmed, and only truthy (non-empty) tokens kept. -/
def genreTokens (b : Book) : List String :=
  match b.genre with
  | none => []
  | some g =>
    (((splitComma g.toList).map trimChars).map (fun cs => String.mk cs)).filter
      (fun t => t != "")

/-- One step of building `genreCounts`: increment the token's entry or append
a fresh entry with count 1.  The association list keeps keys in
first-insertion order (incrementing an existing JavaScript property does not
move it); `objectKeysOrder` below turns this into the `Object.keys`
enumeration order. -/
def bumpGenre (counts : List (String × Nat)) (g : String) : List (String × Nat) :=
  if counts.any (fun p => p.1 == g) then
    counts.map (fun p => if p.1 == g then (p.1, p.2 + 1) else p)
  else counts ++ [(g, 1)]

/-- The `genreCounts` object after the `forEach` loops. -/
def genreCounts (books : List Book) : List (String × Nat) :=
  books.foldl (fun counts b => (genreTokens b).foldl bumpGenre counts) []

/-- One step of `Object.keys(genreCounts).reduce((a, b) =>
genreCounts[a] > genreCounts[b] ? a : b)`: keep the accumulator only when its
count is strictly greater, so an equal count moves to the later key. -/
def pickTop (a q : String × Nat) : String × Nat := if a.2 > q.2 then a else q

/-- `Array.prototype.reduce` with no initial value: `none` on an empty key
list models the `TypeError` it throws there. -/
def reduceFavorite : List (String × Nat) → Option (String × Nat)
  | [] => none
  | p :: rest => some (rest.foldl pickTop p)

/-- Value of a decimal digit string. -/
def digitsToNat (cs : List Char) : Nat :=
  cs.foldl (fun acc c => acc * 10 + (c.toNat - '0'.toNat)) 0

/-- Whether a property key is a canonical array index in the ECMAScript
sense: a non-empty digit string with no leading zero (except `"0"` itself)
whose value is below `2^32 - 1`.  `Object.keys` enumerates such keys before
all other string keys. -/
def isArrayIndexKey (s : String) : Bool :=
  match s.toList with
  | [] => false
  | c :: cs =>
    (c :: cs).all Char.isDigit && (c != '0' || cs.isEmpty) &&
    digitsToNat (c :: cs) < 4294967295

/-- The `Object.keys` enumeration order of the count object: entries whose
key is a canonical array index first, in ascending numeric order, then the
remaining entries in key-insertion order. -/
def objectKeysOrder (counts : List (String × Nat)) : List (String × Nat) :=
  (counts.filter (fun p => isArrayIndexKey p.1)).insertionSort
    (fun a b => digitsToNat a.1.toList ≤ digitsToNat b.1.toList) ++
  counts.filter (fun p => !isArrayIndexKey p.1)

/-- `getFavoriteGenre`: empty book list gives `""`; otherwise reduce the
genre counts in `Object.keys` enumeration order (`none` models the exception
of reducing an empty key list); `mostCommonGenre || ""` maps an empty key to
`""`. -/
def getFavoriteGenre (books : List Book) : Option String :=
  if books.length = 0 then some ""
  else
    match reduceFavorite (objectKeysOrder (genreCounts books)) with
    | none => none
    | some p => some (if p.1 = "" then "" else p.1)

/-- JavaScript `String.prototype.includes` on character lists: some split of
`s` has `pat` as the next run. -/
def listIncl (s pat : List Char) : Bool :=
  (List.range (s.length + 1)).any (fun i => (s.drop i).take pat.length == pat)

/-- `g.includes(mostCommonGenre)` on strings. -/
def strIncludes (s pat : String) : Bool := listIncl s.toList pat.toList

/-- The filter predicate `book.genre?.includes(fav)`: a null genre is falsy
(optional chaining yields `undefined`), otherwise a substring test. -/
def genreHasFav (fav : String) (b : Book) : Bool :=
  match b.genre with
  | none => false
  | some g => strIncludes g fav

/-- `getBooksFromFavoriteGenre`: keep the books whose genre contains the
favorite genre as a substring (`book.genre?.includes(...)`, a null genre is
falsy), sorted by rating descending with a missing rating read as 0.  `none`
propagates the exception `getFavoriteGenre` can throw. -/
def getBooksFromFavoriteGenre (books : List Book) : Option (List Book) :=
  match getFavoriteGenre books with
  | none => none
  | some fav =>
    some ((books.filter (genreHasFav fav)).mergeSort
      (fun a z => decide (ratingVal z ≤ ratingVal a)))

/-- Book with genre `"Sci-Fi, Drama"` (the worked example of the spec). -/
def bookSciDrama : Book := { baseBook with genre := some "Sci-Fi, Drama" }

/-- Book with genre `"Sci-Fi"` (the worked example of the spec). -/
def bookSci : Book := { baseBook with id := 2, genre := some "Sci-Fi" }

/-- Book with the single genre token `"A"`. -/
def bookGenreA : Book := { baseBook with genre := some "A" }

/-- Book with the single genre token `"B"`. -/
def bookGenreB : Book := { baseBook with id := 2, genre := some "B" }

/-- Book with the single genre token `"Zebra"`. -/
def bookZebra : Book := { baseBook with genre := some "Zebra" }

/-- Book with the single genre token `"7"` (an array-index-like key, which
`Object.keys` enumerates before all other string keys). -/
def bookSeven : Book := { baseBook with id := 2, genre := some "7" }

/-- C6 counterexample: with genres `"A"` then `"B"` the two tokens tie at
count 1 and the first-seen token is `"A"`, yet `getFavoriteGenre` returns
`"B"`: the reduce keeps the accumulator only on a strictly greater count, so
on a tie the token later in key enumeration order wins — for these
non-index keys that is the *last-seen* token, not the first-seen one. -/
theorem getFavoriteGenre_tie_counterexample :
    genreCounts [bookGenreA, bookGenreB] = [("A", 1), ("B", 1)] ∧
    getFavoriteGenre [bookGenreA, bookGenreB] = some "B" ∧
    getFavoriteGenre [bookGenreA, bookGenreB] ≠ some "A" := by
  refine ⟨by decide, by decide, by decide⟩

/-- C9: on a non-empty books list in which no book yields a non-empty trimmed
genre token (here one book whose genre is only commas and spaces), the genre
count object stays empty and the initial-value-less `reduce` over its keys
throws (`none` in the embedding) instead of returning a value. -/
theorem getFavoriteGenre_throws_on_tokenless :
    ([{ baseBook with genre := some " , ," }] : List Book).length ≠ 0 ∧
    genreTokens { baseBook with genre := some " , ," } = [] ∧
    getFavoriteGenre [{ baseBook with genre := some " , ," }] = none := by
  refine ⟨by decide, by decide, by decide⟩

/-- The keys of the genre-count association list, in insertion order. -/
def countsKeys (counts : List (String × Nat)) : List String :=
  counts.map (fun p => p.1)

/-- Invariant tying a genre-count list to the tokens already processed:
keys are distinct, each entry's count is the number of occurrences of its
key among the processed tokens, and the keys are exactly the seen tokens. -/
def CountsInv (processed : List String) (counts : List (String × Nat)) : Prop :=
  (countsKeys counts).Nodup ∧
  (∀ p ∈ counts, p.2 = processed.count p.1) ∧
  (∀ k : String, k ∈ countsKeys counts ↔ k ∈ processed)

/-- `bumpGenre` preserves the counting invariant. -/
theorem countsInv_bump {processed : List String} {counts : List (String × Nat)}
    (g : String) (h : CountsInv processed counts) :
    CountsInv (processed ++ [g]) (bumpGenre counts g) := by
  obtain ⟨hnd, hcnt, hkeys⟩ := h
  by_cases hany : counts.any (fun p => p.1 == g) = true
  · have hmem : g ∈ countsKeys counts := by
      obtain ⟨p, hp, hpg⟩ := List.any_eq_true.mp hany
      have hpe : p.1 = g := by simpa using hpg
      exact hpe ▸ List.mem_map.mpr ⟨p, hp, rfl⟩
    unfold bumpGenre
    rw [if_pos hany]
    have hkeq : countsKeys (counts.map (fun p => if p.1 == g then (p.1, p.2 + 1) else p)) =
        countsKeys counts := by
      unfold countsKeys
      rw [List.map_map]
      refine List.map_congr_left ?_
      intro p hp
      by_cases hpg : (p.1 == g) = true
      · simp only [Function.comp_apply]
        rw [if_pos hpg]
      · simp only [Function.comp_apply]
        rw [if_neg hpg]
    refine ⟨by rw [hkeq]; exact hnd, ?_, ?_⟩
    · intro p hp
      obtain ⟨q, hq, hqe⟩ := List.mem_map.mp hp
      by_cases hqg : (q.1 == g) = true
      · rw [if_pos hqg] at hqe
        subst hqe
        have hq1 : q.1 = g := by simpa using hqg
        have hqc := hcnt q hq
        rw [List.count_append, List.count_singleton]
        simp only [hq1]
        rw [hq1] at hqc
        simp [hqc]
      · rw [if_neg hqg] at hqe
        subst hqe
        have hq1 : ¬q.1 = g := by simpa using hqg
        have hqc := hcnt q hq
        rw [List.count_append, List.count_singleton]
        have : (g == q.1) = false := by
          simp only [beq_eq_false_iff_ne]
          exact fun he => hq1 he.symm
        simp [this, hqc]
    · intro k
      rw [hkeq, hkeys k, List.mem_append]
      constructor
      · exact Or.inl
      · rintro (hk | hk)
        · exact hk
        · have : k = g := by simpa using hk
          exact this ▸ (hkeys g).mp hmem
  · unfold bumpGenre
    rw [if_neg hany]
    have hgnot : g ∉ countsKeys counts := by
      intro hg
      obtain ⟨p, hp, hpe⟩ := List.mem_map.mp hg
      exact hany (List.any_eq_true.mpr ⟨p, hp, by simp [hpe]⟩)
    have hgproc : g ∉ processed := fun hg => hgnot ((hkeys g).mpr hg)
    refine ⟨?_, ?_, ?_⟩
    · have hkeq : countsKeys (counts ++ [(g, 1)]) = countsKeys counts ++ [g] := by
        unfold countsKeys
        rw [List.map_append]
        rfl
      rw [hkeq, List.nodup_append]
      refine ⟨hnd, List.nodup_singleton g, ?_⟩
      intro x hx hx2
      have : x = g := by simpa using hx2
      exact hgnot (this ▸ hx)
    · intro p hp
      rcases List.mem_append.mp hp with hpl | hpr
      · have hqc := hcnt p hpl
        have hpg : ¬p.1 = g := fun he => hgnot (he ▸ List.mem_map.mpr ⟨p, hpl, rfl⟩)
        rw [List.count_append, List.count_singleton]
        have : (g == p.1) = false := by
          simp only [beq_eq_false_iff_ne]
          exact fun he => hpg he.symm
        simp [this, hqc]
      · have hpe : p = (g, 1) := by simpa using hpr
        subst hpe
        rw [List.count_append, List.count_singleton]
        simp [List.count_eq_zero.mpr hgproc]
    · intro k
      have hkeq : countsKeys (counts ++ [(g, 1)]) = countsKeys counts ++ [g] := by
        unfold countsKeys
        rw [List.map_append]
        rfl
      rw [hkeq, List.mem_append, List.mem_append]
      constructor
      · rintro (hk | hk)
        · exact Or.inl ((hkeys k).mp hk)
        · exact Or.inr hk
      · rintro (hk | hk)
        · exact Or.inl ((hkeys k).mpr hk)
        · exact Or.inr hk

/-- Folding `bumpGenre` over a token list preserves the counting invariant. -/
theorem countsInv_foldl (tokens : List String) :
    ∀ (processed : List String) (counts : List (String × Nat)),
    CountsInv processed counts →
    CountsInv (processed ++ tokens) (tokens.foldl bumpGenre counts) := by
  induction tokens with
  | nil =>
    intro processed counts h
    simpa using h
  | cons t ts ih =>
    intro processed counts h
    have h2 := ih (processed ++ [t]) _ (countsInv_bump t h)
    simpa [List.append_assoc] using h2

/-- `genreCounts` satisfies the counting invariant with respect to all genre
tokens of all books (in order). -/
theorem genreCounts_inv (books : List Book) :
    CountsInv ((books.map genreTokens).flatten) (genreCounts books) := by
  suffices h : ∀ (processed : List String) (counts : List (String × Nat)),
      CountsInv processed counts →
      CountsInv (processed ++ (books.map genreTokens).flatten)
        (books.foldl (fun c b => (genreTokens b).foldl bumpGenre c) counts) by
    have h0 := h [] [] ⟨List.nodup_nil, by simp, by simp [countsKeys]⟩
    simpa [genreCounts] using h0
  induction books with
  | nil =>
    intro processed counts h
    simpa using h
  | cons b bs ih =>
    intro processed counts h
    have h2 := ih _ _ (countsInv_foldl (genreTokens b) processed counts h)
    simpa [List.append_assoc] using h2

/-- The value of the initial-value-less reduce is a *last maximum*: the key
list splits around it with all earlier counts `≤` and all later counts `<`. -/
theorem foldl_pickTop_spec (rest : List (String × Nat)) :
    ∀ p : String × Nat,
    ∃ l1 l2, p :: rest = l1 ++ (rest.foldl pickTop p) :: l2 ∧
      (∀ q ∈ l1, q.2 ≤ (rest.foldl pickTop p).2) ∧
      (∀ q ∈ l2, q.2 < (rest.foldl pickTop p).2) := by
  induction rest with
  | nil =>
    intro p
    exact ⟨[], [], rfl, by simp, by simp⟩
  | cons q rest ih =>
    intro p
    by_cases hq : p.2 > q.2
    · have hstep : List.foldl pickTop p (q :: rest) = List.foldl pickTop p rest := by
        simp [List.foldl_cons, pickTop, hq]
      obtain ⟨l1, l2, heq, h1, h2⟩ := ih p
      rw [hstep]
      cases l1 with
      | nil =>
        simp only [List.nil_append] at heq
        have hp : p = rest.foldl pickTop p := (List.cons_eq_cons.mp heq).1
        have hrest : rest = l2 := (List.cons_eq_cons.mp heq).2
        refine ⟨[], q :: l2, ?_, by simp, ?_⟩
        · simp [← hrest, ← hp]
        · intro x hx
          rcases List.mem_cons.mp hx with hx | hx
          · subst hx
            rw [← hp]
            exact hq
          · exact h2 x hx
      | cons a l1' =>
        have hpa : p = a := (List.cons_eq_cons.mp heq).1
        have hrest : rest = l1' ++ rest.foldl pickTop p :: l2 :=
          (List.cons_eq_cons.mp heq).2
        have hple : p.2 ≤ (rest.foldl pickTop p).2 := hpa ▸ h1 a (List.mem_cons_self a l1')
        refine ⟨p :: q :: l1', l2, ?_, ?_, h2⟩
        · rw [List.cons_append, List.cons_append, ← hrest]
        · intro x hx
          rcases List.mem_cons.mp hx with hx | hx
          · subst hx; exact hple
          rcases List.mem_cons.mp hx with hx | hx
          · subst hx
            exact le_trans (le_of_lt hq) hple
          · exact h1 x (hpa ▸ List.mem_cons_of_mem a hx)
    · have hstep : List.foldl pickTop p (q :: rest) = List.foldl pickTop q rest := by
        simp [List.foldl_cons, pickTop, hq]
      obtain ⟨l1, l2, heq, h1, h2⟩ := ih q
      rw [hstep]
      have hqle : q.2 ≤ (rest.foldl pickTop q).2 := by
        cases l1 with
        | nil =>
          simp only [List.nil_append] at heq
          rw [← (List.cons_eq_cons.mp heq).1]
        | cons a l1' =>
          have hqa : q = a := (List.cons_eq_cons.mp heq).1
          exact hqa ▸ h1 a (List.mem_cons_self a l1')
      refine ⟨p :: l1, l2, ?_, ?_, h2⟩
      · rw [List.cons_append, ← heq]
      · intro x hx
        rcases List.mem_cons.mp hx with hx | hx
        · subst hx
          exact le_trans (le_of_not_lt hq) hqle
        · exact h1 x hx

/-- `objectKeysOrder` is a permutation of the count list: it reorders the
entries without adding or dropping any. -/
theorem objectKeysOrder_perm (counts : List (String × Nat)) :
    (objectKeysOrder counts).Perm counts := by
  unfold objectKeysOrder
  refine List.Perm.trans
    (List.Perm.append (List.perm_insertionSort _ _) (List.Perm.refl _)) ?_
  exact List.filter_append_perm _ counts

/-- C6 (amended): `getFavoriteGenre` splits each book's genre string on
commas, trims each token, counts the occurrences of each non-empty token
across all books (fourth conjunct, via `genreCounts`), and returns a token
of maximal count — but ties are broken in favour of the token that comes
LAST in `Object.keys` enumeration order (array-index-like tokens first in
ascending numeric order, then the remaining tokens in first-insertion
order), not the first-seen token: the reduce keeps the accumulator only on a
strictly greater count (fifth conjunct: the enumeration splits around the
result with every earlier count `≤` and every later count `<`, and the
result's count is maximal over all tokens).  On an empty books list it
returns `""`; on books with genres `"Sci-Fi, Drama"` and `"Sci-Fi"` it
returns `"Sci-Fi"`; on the tied genres `"Zebra"` then `"7"` the numeric key
`"7"` is enumerated first, so the first-seen token `"Zebra"` wins. -/
theorem getFavoriteGenre_spec :
    getFavoriteGenre [] = some "" ∧
    getFavoriteGenre [bookSciDrama, bookSci] = some "Sci-Fi" ∧
    getFavoriteGenre [bookZebra, bookSeven] = some "Zebra" ∧
    (∀ books : List Book, ∀ p ∈ genreCounts books,
      p.2 = ((books.map genreTokens).flatten).count p.1) ∧
    (∀ (books : List Book) (g : String), books ≠ [] →
      getFavoriteGenre books = some g →
      ∃ (c : Nat) (l1 l2 : List (String × Nat)),
        objectKeysOrder (genreCounts books) = l1 ++ (g, c) :: l2 ∧
        (∀ q ∈ l1, q.2 ≤ c) ∧ (∀ q ∈ l2, q.2 < c) ∧
        (g, c) ∈ genreCounts books ∧
        (∀ q ∈ genreCounts books, q.2 ≤ c)) := by
  refine ⟨by decide, by decide, by decide, ?_, ?_⟩
  · intro books p hp
    exact (genreCounts_inv books).2.1 p hp
  · intro books g hne hfav
    unfold getFavoriteGenre at hfav
    rw [if_neg (by simpa [List.length_eq_zero] using hne)] at hfav
    cases hrc : objectKeysOrder (genreCounts books) with
    | nil =>
      rw [hrc] at hfav
      simp [reduceFavorite] at hfav
    | cons p0 rest =>
      rw [hrc] at hfav
      simp only [reduceFavorite, Option.some.injEq] at hfav
      obtain ⟨l1, l2, heq, h1, h2⟩ := foldl_pickTop_spec rest p0
      have hg : g = (rest.foldl pickTop p0).1 := by
        by_cases he : (rest.foldl pickTop p0).1 = ""
        · rw [if_pos he] at hfav
          rw [← hfav, he]
        · rw [if_neg he] at hfav
          exact hfav.symm
      have hrmem : rest.foldl pickTop p0 ∈ genreCounts books := by
        have h3 : rest.foldl pickTop p0 ∈ p0 :: rest := by
          rw [heq]
          exact List.mem_append.mpr (Or.inr (List.mem_cons_self _ _))
        rw [← hrc] at h3
        exact (objectKeysOrder_perm (genreCounts books)).mem_iff.mp h3
      have hmax : ∀ q ∈ genreCounts books, q.2 ≤ (rest.foldl pickTop p0).2 := by
        intro q hq
        have h3 : q ∈ p0 :: rest := by
          rw [← hrc]
          exact (objectKeysOrder_perm (genreCounts books)).mem_iff.mpr hq
        rw [heq] at h3
        rcases List.mem_append.mp h3 with h3 | h3
        · exact h1 q h3
        rcases List.mem_cons.mp h3 with h3 | h3
        · rw [h3]
        · exact le_of_lt (h2 q h3)
      refine ⟨(rest.foldl pickTop p0).2, l1, l2, ?_, h1, h2, ?_, hmax⟩
      · rw [heq, hg, Prod.mk.eta]
      · rw [hg, Prod.mk.eta]
        exact hrmem

/-- Witness for C6 (amended) on the worked Sci-Fi example. -/
theorem getFavoriteGenre_spec_witness :
    ((("Sci-Fi", 2) : String × Nat).2 =
      (([bookSciDrama, bookSci].map genreTokens).flatten).count "Sci-Fi") ∧
    ∃ (c : Nat) (l1 l2 : List (String × Nat)),
      objectKeysOrder (genreCounts [bookSciDrama, bookSci]) = l1 ++ ("Sci-Fi", c) :: l2 ∧
      (∀ q ∈ l1, q.2 ≤ c) ∧ (∀ q ∈ l2, q.2 < c) ∧
      ("Sci-Fi", c) ∈ genreCounts [bookSciDrama, bookSci] ∧
      (∀ q ∈ genreCounts [bookSciDrama, bookSci], q.2 ≤ c) :=
  ⟨getFavoriteGenre_spec.2.2.2.1 [bookSciDrama, bookSci] ("Sci-Fi", 2) (by decide),
   getFavoriteGenre_spec.2.2.2.2 [bookSciDrama, bookSci] "Sci-Fi" (by decide) (by decide)⟩

/-- `listIncl` holds exactly when the pattern occurs as a contiguous run. -/
theorem listIncl_iff (s pat : List Char) :
    listIncl s pat = true ↔ ∃ pre post, s = pre ++ pat ++ post := by
  unfold listIncl
  rw [List.any_eq_true]
  constructor
  · rintro ⟨i, hi, hie⟩
    have heq : (s.drop i).take pat.length = pat := eq_of_beq hie
    refine ⟨s.take i, s.drop (i + pat.length), ?_⟩
    have h1 : s.drop i = pat ++ s.drop (i + pat.length) := by
      have h2 := List.take_append_drop pat.length (s.drop i)
      rw [heq, List.drop_drop] at h2
      exact h2.symm
    rw [List.append_assoc, ← h1, List.take_append_drop]
  · rintro ⟨pre, post, rfl⟩
    refine ⟨pre.length, ?_, ?_⟩
    · rw [List.mem_range, Nat.lt_succ_iff]
      simp [List.length_append]
    · rw [List.append_assoc, List.drop_left, List.take_left]
      simp

/-- C7: whenever `getBooksFromFavoriteGenre` returns a list (no exception),
every returned book has a genre string containing the favorite genre as a
substring, and the list is sorted by rating descending with a missing
rating treated as 0. -/
theorem getBooksFromFavoriteGenre_spec (books : List Book) (fav : String)
    (result : List Book) (hfav : getFavoriteGenre books = some fav)
    (hres : getBooksFromFavoriteGenre books = some result) :
    (∀ b ∈ result, ∃ g : String, b.genre = some g ∧
      ∃ pre post : List Char, g.toList = pre ++ fav.toList ++ post) ∧
    result.Pairwise (fun a z => ratingVal z ≤ ratingVal a) := by
  unfold getBooksFromFavoriteGenre at hres
  rw [hfav] at hres
  simp only [Option.some.injEq] at hres
  subst hres
  constructor
  · intro b hb
    have h2 : b ∈ books.filter (genreHasFav fav) :=
      (List.mergeSort_perm _ _).mem_iff.mp hb
    have h3 := List.of_mem_filter h2
    unfold genreHasFav at h3
    cases hg : b.genre with
    | none =>
      rw [hg] at h3
      simp at h3
    | some g =>
      rw [hg] at h3
      refine ⟨g, rfl, ?_⟩
      exact (listIncl_iff g.toList fav.toList).mp h3
  · have hs := List.sorted_mergeSort ratingLe_trans ratingLe_total
      (books.filter (genreHasFav fav))
    exact hs.imp (fun h => of_decide_eq_true h)

/-- Concrete evaluation of `getBooksFromFavoriteGenre` on one book. -/
theorem getBooksFromFavoriteGenre_single_eval :
    getBooksFromFavoriteGenre [bookSci] = some [bookSci] := by
  have hfav : getFavoriteGenre [bookSci] = some "Sci-Fi" := by decide
  unfold getBooksFromFavoriteGenre
  rw [hfav]
  have hf : [bookSci].filter (genreHasFav "Sci-Fi") = [bookSci] := by decide
  show some (([bookSci].filter (genreHasFav "Sci-Fi")).mergeSort
      (fun a z => decide (ratingVal z ≤ ratingVal a))) = some [bookSci]
  rw [hf, mergeSort_single]

/-- Witness for C7 on a concrete one-book list. -/
theorem getBooksFromFavoriteGenre_spec_witness :
    (∃ g : String, bookSci.genre = some g ∧
      ∃ pre post : List Char, g.toList = pre ++ "Sci-Fi".toList ++ post) ∧
    ([bookSci] : List Book).Pairwise (fun a z => ratingVal z ≤ ratingVal a) :=
  ⟨(getBooksFromFavoriteGenre_spec [bookSci] "Sci-Fi" [bookSci] (by decide)
      getBooksFromFavoriteGenre_single_eval).1 bookSci (List.mem_singleton.mpr rfl),
   (getBooksFromFavoriteGenre_spec [bookSci] "Sci-Fi" [bookSci] (by decide)
      getBooksFromFavoriteGenre_single_eval).2⟩

/-- The `{ error, data }` shape of a supabase query reply. -/
structure QueryResponse (α : Type) where
  error : Option String
  data : Option α
deriving Repr, DecidableEq

/-- The mutable fields of the `UserState` class the claims concern: the
current user (by id — `this.user.id` is all the code reads), whether a
supabase client is attached, the cached books and the display name.  The
field initialisers of the class leave everything empty. -/
structure SessionState where
  user : Option String
  hasSupabase : Bool
  allBooks : List Book
  userName : Option String
deriving Repr, DecidableEq

/-- The signed-URL exchange of `fetchUserData` for one book: when the cover
URL starts with `PUBLIC_SUPABASE_URL`, exchange it for a signed URL for the
file path after the bucket prefix (`sign` abstracts `createSignedUrl`;
`none` models a null `signedUrlData`, which leaves the cover unchanged; the
inner `this.supabase` check is true whenever this code runs). -/
def signBookCover (supabaseUrl : String) (sign : String → Option String)
    (book : Book) : Book :=
  match book.cover_image with
  | none => book
  | some url =>
    if url.startsWith supabaseUrl then
      match sign ((url.splitOn
          (supabaseUrl ++ "/storage/v1/object/public/book-covers/")).getD 1 "") with
      | some signedUrl => { book with cover_image := some signedUrl }
      | none => book
    else book

/-- `fetchUserData`: return unchanged when no user or no supabase client;
join the two fetches and on any error or missing data log and return with
no state change; otherwise replace the books (each passed through the
signed-URL exchange) and the display name. -/
def fetchUserData (st : SessionState)
    (booksResponse : QueryResponse (List Book))
    (userNamesResponse : QueryResponse String)
    (signCover : Book → Book) : SessionState :=
  if st.user.isNone || !st.hasSupabase then st
  else if booksResponse.error.isSome || booksResponse.data.isNone
      || userNamesResponse.error.isSome || userNamesResponse.data.isNone then st
  else
    { st with
      allBooks := (booksResponse.data.getD []).map signCover
      userName := userNamesResponse.data }

/-- C1: if either of the two joined fetches reports an error or missing
data, `fetchUserData` leaves the whole prior state — in particular the
books list and the display name — exactly unchanged (neither fetched result
is applied). -/
theorem fetchUserData_error_noop (st : SessionState)
    (booksResponse : QueryResponse (List Book))
    (userNamesResponse : QueryResponse String) (signCover : Book → Book)
    (h : booksResponse.error.isSome = true ∨ booksResponse.data = none ∨
      userNamesResponse.error.isSome = true ∨ userNamesResponse.data = none) :
    fetchUserData st booksResponse userNamesResponse signCover = st := by
  unfold fetchUserData
  by_cases hg : (st.user.isNone || !st.hasSupabase) = true
  · rw [if_pos hg]
  · rw [if_neg hg, if_pos]
    rcases h with h | h | h | h
    all_goals simp [h]

/-- A populated session used by the C1 witness. -/
def demoSession : SessionState := ⟨some "alice", true, [demoBookOne], some "Alice"⟩

/-- Witness for C1: a books-query error leaves a concrete populated session
unchanged. -/
theorem fetchUserData_error_noop_witness :
    fetchUserData demoSession ⟨some "boom", none⟩ ⟨none, some "Alice"⟩
      (fun b => b) = demoSession :=
  fetchUserData_error_noop demoSession ⟨some "boom", none⟩ ⟨none, some "Alice"⟩
    (fun b => b) (Or.inl rfl)

/-- The books query `from("books").select("*").eq("user_id", userId)`: on a
backend error there is no data; otherwise exactly the owner's rows of the
backend table (the owner filter is the query's contract, §6 of the spec). -/
def queryBooksByOwner (db : List Book) (uid : String) (err : Option String) :
    QueryResponse (List Book) :=
  match err with
  | some e => ⟨some e, none⟩
  | none => ⟨none, some (db.filter (fun b => b.user_id == uid))⟩

/-- `uploadBookCover` (local effect): the three remote calls each abort on
failure; on full success the matching book's cover is set to the signed
URL (a null signed URL leaves the list unchanged). -/
def uploadBookCover (st : SessionState) (bookId : Int) (uploadErr : Option String)
    (status : Nat) (updateErr : Option String) (signedUrl : Option String) :
    SessionState :=
  if st.user.isNone || !st.hasSupabase then st
  else if uploadErr.isSome then st
  else if status != 204 || updateErr.isSome then st
  else
    match signedUrl with
    | some url =>
      { st with allBooks := st.allBooks.map (fun b =>
          if b.id == bookId then { b with cover_image := some url } else b) }
    | none => st

/-- One externally triggered operation of the session: `updateState` (with
the backend table, the outcomes of the two fetches and the signing oracle),
`updateBook`, or `uploadBookCover`. -/
inductive Event where
  | upState (u : Option String) (hasSb : Bool) (db : List Book)
      (booksErr : Option String) (nameRes : QueryResponse String)
      (sign : String → Option String)
  | upBook (bookId : Int) (u : BookUpdate) (resp : UpdateResponse)
  | upCover (bookId : Int) (uploadErr : Option String) (status : Nat)
      (updateErr : Option String) (signedUrl : Option String)

/-- Whether an event is an `updateState` (refresh). -/
def Event.isUpState : Event → Bool
  | .upState _ _ _ _ _ _ => true
  | _ => false

/-- The state transition of one event.  `updateState` first replaces
session/supabase/user and then runs `fetchUserData`; `updateBook` returns
unchanged without a supabase client. -/
def step (supabaseUrl : String) (st : SessionState) (e : Event) : SessionState :=
  match e with
  | .upState u hasSb db booksErr nameRes sign =>
    fetchUserData { st with user := u, hasSupabase := hasSb }
      (queryBooksByOwner db (u.getD "") booksErr) nameRes
      (signBookCover supabaseUrl sign)
  | .upBook bookId u resp =>
    if st.hasSupabase then
      { st with allBooks := updateBook st.allBooks bookId u resp }
    else st
  | .upCover bookId uploadErr status updateErr signedUrl =>
    uploadBookCover st bookId uploadErr status updateErr signedUrl

/-- The state right after construction, before `updateState` runs: the field
initialisers of the class. -/
def initState : SessionState := ⟨none, false, [], none⟩

/-- The session state after a trace of operations starting from a freshly
constructed object. -/
def run (supabaseUrl : String) (events : List Event) : SessionState :=
  events.foldl (step supabaseUrl) initState

/-- Every book of the list is owned by `uid`. -/
def OwnedBy (uid : String) (books : List Book) : Prop :=
  ∀ b ∈ books, b.user_id = uid

/-- The signed-URL exchange never changes a book's owner. -/
theorem signBookCover_user_id (supabaseUrl : String) (sign : String → Option String)
    (book : Book) : (signBookCover supabaseUrl sign book).user_id = book.user_id := by
  unfold signBookCover
  split
  · rfl
  · split
    · split
      · rfl
      · rfl
    · rfl

/-- `updateBook` never changes any book's owner (`user_id` is not an
updatable field). -/
theorem updateBook_owned (books : List Book) (bookId : Int) (u : BookUpdate)
    (resp : UpdateResponse) (uid : String) (h : OwnedBy uid books) :
    OwnedBy uid (updateBook books bookId u resp) := by
  unfold updateBook
  by_cases hc : (resp.status == 204 && resp.error.isNone) = true
  · rw [if_pos hc]
    intro b hb
    obtain ⟨q, hq, hqe⟩ := List.mem_map.mp hb
    by_cases hid : (q.id == bookId) = true
    · rw [if_pos hid] at hqe
      rw [← hqe, applyUpdate_user_id]
      exact h q hq
    · rw [if_neg hid] at hqe
      rw [← hqe]
      exact h q hq
  · rw [if_neg hc]
    exact h

/-- `uploadBookCover` changes no book's owner and not the user. -/
theorem uploadBookCover_owner (st : SessionState) (bookId : Int)
    (uploadErr : Option String) (status : Nat) (updateErr : Option String)
    (signedUrl : Option String) (uid : String)
    (hu : st.user = some uid) (hb : OwnedBy uid st.allBooks) :
    (uploadBookCover st bookId uploadErr status updateErr signedUrl).user = some uid ∧
    OwnedBy uid (uploadBookCover st bookId uploadErr status updateErr signedUrl).allBooks := by
  unfold uploadBookCover
  split
  · exact ⟨hu, hb⟩
  split
  · exact ⟨hu, hb⟩
  split
  · exact ⟨hu, hb⟩
  split
  · refine ⟨hu, ?_⟩
    intro b hbm
    obtain ⟨q, hq, hqe⟩ := List.mem_map.mp hbm
    by_cases hid : (q.id == bookId) = true
    · rw [if_pos hid] at hqe
      rw [← hqe]
      exact hb q hq
    · rw [if_neg hid] at hqe
      rw [← hqe]
      exact hb q hq
  · exact ⟨hu, hb⟩

/-- Any non-refresh event preserves the user and the ownership of the books. -/
theorem step_preserves_owner (supabaseUrl : String) (st : SessionState)
    (e : Event) (uid : String) (hup : e.isUpState = false)
    (hu : st.user = some uid) (hb : OwnedBy uid st.allBooks) :
    (step supabaseUrl st e).user = some uid ∧
    OwnedBy uid (step supabaseUrl st e).allBooks := by
  cases e with
  | upState u hasSb db booksErr nameRes sign => simp [Event.isUpState] at hup
  | upBook bookId u resp =>
    simp only [step]
    by_cases hsb : st.hasSupabase = true
    · rw [if_pos hsb]
      exact ⟨hu, updateBook_owned st.allBooks bookId u resp uid hb⟩
    · rw [if_neg hsb]
      exact ⟨hu, hb⟩
  | upCover bookId uploadErr status updateErr signedUrl =>
    exact uploadBookCover_owner st bookId uploadErr status updateErr signedUrl uid hu hb

/-- A successful refresh (user and supabase present, no books error, a good
display-name reply) makes `uid` the user and leaves only `uid`-owned books. -/
theorem step_upState_ok (supabaseUrl : String) (st : SessionState) (uid : String)
    (db : List Book) (nameRes : QueryResponse String) (sign : String → Option String)
    (hne : nameRes.error = none) (hnd : nameRes.data.isSome = true) :
    (step supabaseUrl st (.upState (some uid) true db none nameRes sign)).user = some uid ∧
    OwnedBy uid (step supabaseUrl st (.upState (some uid) true db none nameRes sign)).allBooks := by
  obtain ⟨nm, hnm⟩ := Option.isSome_iff_exists.mp hnd
  simp only [step, queryBooksByOwner]
  unfold fetchUserData
  rw [if_neg (by simp)]
  rw [if_neg (by simp [hne, hnm])]
  refine ⟨rfl, ?_⟩
  intro b hb
  simp only [Option.getD_some] at hb
  obtain ⟨q, hq, hqe⟩ := List.mem_map.mp hb
  have hqu : (q.user_id == uid) = true := (List.mem_filter.mp hq).2
  rw [← hqe, signBookCover_user_id]
  exact beq_iff_eq.mp hqu

/-- Events that never refresh preserve user and ownership along a fold. -/
theorem foldl_preserves_owner (supabaseUrl : String) (uid : String) :
    ∀ (t : List Event) (st : SessionState), (∀ e ∈ t, e.isUpState = false) →
    st.user = some uid → OwnedBy uid st.allBooks →
    (t.foldl (step supabaseUrl) st).user = some uid ∧
    OwnedBy uid (t.foldl (step supabaseUrl) st).allBooks := by
  intro t
  induction t with
  | nil =>
    intro st _ hu hb
    exact ⟨hu, hb⟩
  | cons e t ih =>
    intro st hes hu hb
    have hstep := step_preserves_owner supabaseUrl st e uid
      (hes e (List.mem_cons_self e t)) hu hb
    exact ih _ (fun e' he' => hes e' (List.mem_cons_of_mem e he')) hstep.1 hstep.2

/-- C8 (amended): at every reachable state whose most recent
`updateState`/refresh set the user to `uid` with a supabase client and both
fetches succeeded, every book in the list has `user_id = uid`, the current
user's id.  (The counterexample shows the restriction to a successful last
refresh is necessary.) -/
theorem ownership_invariant_after_ok_refresh (supabaseUrl : String)
    (t1 t2 : List Event) (uid : String) (db : List Book)
    (nameRes : QueryResponse String) (sign : String → Option String)
    (hne : nameRes.error = none) (hnd : nameRes.data.isSome = true)
    (ht2 : ∀ e ∈ t2, e.isUpState = false) :
    (run supabaseUrl
      (t1 ++ Event.upState (some uid) true db none nameRes sign :: t2)).user = some uid ∧
    OwnedBy uid (run supabaseUrl
      (t1 ++ Event.upState (some uid) true db none nameRes sign :: t2)).allBooks := by
  unfold run
  rw [List.foldl_append, List.foldl_cons]
  have h0 := step_upState_ok supabaseUrl
    (List.foldl (step supabaseUrl) initState t1) uid db nameRes sign hne hnd
  exact foldl_preserves_owner supabaseUrl uid t2 _ ht2 h0.1 h0.2

/-- Witness for C8 (amended): one successful refresh for `"alice"` over a
one-book backend table. -/
theorem ownership_invariant_after_ok_refresh_witness :
    (run "https://sb"
      [Event.upState (some "alice") true [baseBook] none ⟨none, some "Alice"⟩
        (fun _ => none)]).user = some "alice" ∧
    OwnedBy "alice"
      (run "https://sb"
        [Event.upState (some "alice") true [baseBook] none ⟨none, some "Alice"⟩
          (fun _ => none)]).allBooks :=
  ownership_invariant_after_ok_refresh "https://sb" [] [] "alice" [baseBook]
    ⟨none, some "Alice"⟩ (fun _ => none) rfl rfl (by simp)

/-- C8 counterexample: a successful refresh as `"alice"` followed by a
refresh as `"bob"` whose books query errors leaves `"bob"` as the current
user while the books list still holds a book owned by `"alice"` — the
ownership invariant does not hold at every reachable state. -/
theorem ownership_invariant_counterexample :
    (run "https://sb"
      [Event.upState (some "alice") true [baseBook] none ⟨none, some "Alice"⟩
        (fun _ => none),
       Event.upState (some "bob") true [] (some "network error") ⟨none, some "Bob"⟩
        (fun _ => none)]).user = some "bob" ∧
    baseBook ∈ (run "https://sb"
      [Event.upState (some "alice") true [baseBook] none ⟨none, some "Alice"⟩
        (fun _ => none),
       Event.upState (some "bob") true [] (some "network error") ⟨none, some "Bob"⟩
        (fun _ => none)]).allBooks ∧
    baseBook.user_id ≠ "bob" := by
  refine ⟨rfl, ?_, by decide⟩
  show baseBook ∈ [baseBook]
  exact List.mem_singleton.mpr rfl
